import Mathlib

/-!
# Verification of the eMedis pilot matching-and-scoring core (`app.py`)

Shallow embedding of the two core functions of the application:
`parse_findings` (finding extraction) and `score_differential`
(weighted-evidence scoring with softmax normalization), together with the
helpers `normalize`, `softmax` and the constant `MAX_TOP`.

Modelling conventions:
* A Python string is a `List Char` (`PyStr`).  Python's `str.lower()` is
  modelled by `Char.toLower` (ASCII case folding; all inputs in the
  development are ASCII) and `str.strip()` by dropping ASCII whitespace
  from both ends.
* A pandas cell read from a data frame is a `Cell`: either a string or the
  missing-value marker `NaN` (pandas stores a missing CSV cell as the
  float `nan`, and Python's `str(nan)` renders it as the string `"nan"`,
  which is what `normalize` produces for it).
* The `weight` cell of an evidence row is `Option WCell`: `none` models an
  absent `weight` column (then `row.get("weight", 1)` yields the default
  `1`), `some (.num q)` a numeric cell and `some (.str s)` a string cell,
  to which `float` is applied.  `float` of an unparsable string raises
  `ValueError`, so the scorer is `Except PyErr`-valued.
* Python floats are modelled by `ℚ` for the exact arithmetic performed on
  CSV numbers (sums of weights) and by `ℝ` once `np.exp` enters; Python's
  `round(x, 1)` is modelled by `roundTo1` using Mathlib's `round`
  (round-half-up; the spec explicitly leaves exact behaviour at `.05`
  ties unspecified, and no statement below depends on a tie).
* The unused `labs` argument of `score_differential` is kept as a value of
  an arbitrary type, exactly as faithful to a never-inspected argument.
-/

namespace App

/-- A Python string, as a list of characters. -/
abbrev PyStr := List Char

/-- A pandas cell: a string value, or the missing-value marker `NaN`. -/
inductive Cell where
  | str (s : PyStr)
  | nan
  deriving DecidableEq, Repr

/-- `str(cell)`: Python's string conversion of a cell; `str(nan) = "nan"`. -/
def cellStr : Cell → PyStr
  | .str s => s
  | .nan => "nan".toList

/-- The six ASCII whitespace characters removed by Python's `str.strip()`. -/
def pySpace (c : Char) : Bool :=
  c == ' ' || c == '\t' || c == '\n' || c == '\r' || c == '\x0b' || c == '\x0c'

/-- `s.strip()`: remove leading and trailing whitespace. -/
def stripL (s : PyStr) : PyStr :=
  ((s.dropWhile pySpace).reverse.dropWhile pySpace).reverse

/-- `s.lower()`: character-wise lower-casing. -/
def lowerL (s : PyStr) : PyStr :=
  s.map Char.toLower

/-- `normalize(s)` from `app.py`: `str(s).strip().lower()`. -/
def normalize (c : Cell) : PyStr :=
  lowerL (stripL (cellStr c))

/-- `p` is an initial segment of `t` (helper for Python's substring test). -/
def leadsB : PyStr → PyStr → Bool
  | [], _ => true
  | _ :: _, [] => false
  | a :: p, b :: t => a == b && leadsB p t

/-- Python's `p in t` on strings: `p` occurs as a contiguous substring of `t`. -/
def substrB : PyStr → PyStr → Bool
  | p, [] => leadsB p []
  | p, b :: t => leadsB p (b :: t) || substrB p t

/-- One row of the finding dictionary (`symptoms_df`); each field is a
pandas cell, `Cell.nan` modelling a missing value. -/
structure DictRow where
  phrase : Cell
  canonical_text : Cell
  deriving DecidableEq, Repr

/-- `parse_findings(text, symptoms_df)` from `app.py`: iterate the dictionary
rows in order and append the row's raw `canonical_text` whenever the
normalized phrase occurs in the normalized text. -/
def parse_findings (text : PyStr) : List DictRow → List Cell
  | [] => []
  | r :: rs =>
    if substrB (normalize r.phrase) (normalize (.str text)) then
      r.canonical_text :: parse_findings text rs
    else
      parse_findings text rs

/-- `MAX_TOP` from `app.py`. -/
def MAX_TOP : ℕ := 5

/-- A Python exception raised by the scorer. -/
inductive PyErr where
  | valueError
  deriving DecidableEq, Repr

/-- A `weight` cell: a numeric value or a string value. -/
inductive WCell where
  | num (q : ℚ)
  | str (s : PyStr)
  deriving DecidableEq, Repr

/-- Python's `float(string)`: optional sign, digits with an optional decimal
point, and an optional decimal exponent, surrounded by optional whitespace;
anything else is unparsable (`none`). -/
def pyParseFloat (s : PyStr) : Option ℚ :=
  let t := stripL s
  let sgn : ℚ := if t.head? = some '-' then -1 else 1
  let t := if t.head? = some '-' || t.head? = some '+' then t.tail else t
  let ip := t.takeWhile Char.isDigit
  let t1 := t.dropWhile Char.isDigit
  let fp := if t1.head? = some '.' then t1.tail.takeWhile Char.isDigit else []
  let t2 := if t1.head? = some '.' then t1.tail.dropWhile Char.isDigit else t1
  if ip.isEmpty && fp.isEmpty then none
  else
    let mant : ℚ :=
      sgn * ((ip.foldl (fun n c => 10 * n + (c.toNat - 48)) 0 : ℕ) +
        (fp.foldl (fun n c => 10 * n + (c.toNat - 48)) 0 : ℕ) / (10 : ℚ) ^ fp.length)
    match t2 with
    | [] => some mant
    | e :: r =>
      if e == 'e' || e == 'E' then
        let esgn : ℤ := if r.head? = some '-' then -1 else 1
        let r := if r.head? = some '-' || r.head? = some '+' then r.tail else r
        let ed := r.takeWhile Char.isDigit
        if ed.isEmpty || !(r.dropWhile Char.isDigit).isEmpty then none
        else some (mant * (10 : ℚ) ^ (esgn * (ed.foldl (fun n c => 10 * n + (c.toNat - 48)) 0 : ℕ)))
      else none

/-- `float(row.get("weight", 1))` from `app.py`: an absent `weight` column
defaults to `1`; a numeric cell is returned as is; a string cell is parsed,
raising `ValueError` when unparsable. -/
def pyFloat : Option WCell → Except PyErr ℚ
  | none => .ok 1
  | some (.num q) => .ok q
  | some (.str s) =>
    match pyParseFloat s with
    | some q => .ok q
    | none => .error .valueError

/-- One row of the disease-evidence table (`disease_df`); only the fields the
scorer reads are modelled (`citation_id` and any extra columns are never
inspected by `score_differential`). -/
structure EvRow where
  disease : PyStr
  finding_text : Cell
  weight : Option WCell
  deriving DecidableEq, Repr

/-- Python's `finding in found`: list membership of the normalized finding
string among the raw cells collected by `parse_findings` (`==` between a
string and `NaN` is `False`). -/
def strMem (x : PyStr) (l : List Cell) : Bool :=
  l.any fun c =>
    match c with
    | .str s => s == x
    | .nan => false

/-- `scores[dx] = scores.get(dx, 0) + w` on an insertion-ordered association
list: update the existing entry in place, or append a new entry at the end
(Python dicts preserve insertion order). -/
def addScore : List (PyStr × ℚ) → PyStr → ℚ → List (PyStr × ℚ)
  | [], d, w => [(d, w)]
  | (k, v) :: t, d, w =>
    if k = d then (k, v + w) :: t else (k, v) :: addScore t d w

/-- The accumulation loop of `score_differential`: for each evidence row,
first evaluate `float(row.get("weight", 1))` (which may raise), then add the
weight to the row's disease if the normalized `finding_text` is a member of
`found`. -/
def accumScores (found : List Cell) : List EvRow → List (PyStr × ℚ) →
    Except PyErr (List (PyStr × ℚ))
  | [], acc => .ok acc
  | r :: rs, acc =>
    match pyFloat r.weight with
    | .error e => .error e
    | .ok w =>
      accumScores found rs
        (if strMem (normalize r.finding_text) found then addScore acc r.disease w else acc)

/-- `np.max` over the (nonempty) list of raw scores. -/
def maxQ : List ℚ → ℚ
  | [] => 0
  | q :: l => l.foldl max q

/-- `softmax(x)` from `app.py`: `e = np.exp(x - np.max(x)); return e / e.sum()`. -/
noncomputable def softmax (x : List ℚ) : List ℝ :=
  let e := x.map fun (v : ℚ) => Real.exp ((v : ℝ) - (maxQ x : ℝ))
  e.map fun t => t / e.sum

/-- Python's `round(x, 1)` on the probability scale: round to one decimal
place (Mathlib's `round`; behaviour at exact `.05` ties is a modelling
choice the spec leaves open). -/
noncomputable def roundTo1 (x : ℝ) : ℝ :=
  ((round (x * 10) : ℤ) : ℝ) / 10

/-- One entry of the scorer's result: `{"name": n, "probability": round(p * 100, 1)}`. -/
structure Cand where
  name : PyStr
  probability : ℝ

/-- The list comprehension of `score_differential`: pair the insertion-ordered
disease names with the softmax of their raw scores, as percentages rounded to
one decimal. -/
noncomputable def candList (scores : List (PyStr × ℚ)) : List Cand :=
  ((scores.map Prod.fst).zip (softmax (scores.map Prod.snd))).map
    fun np2 => ⟨np2.1, roundTo1 (np2.2 * 100)⟩

/-- Python's `sorted(..., key=lambda x: x["probability"], reverse=True)`: a
stable descending sort, modelled by insertion sort with the relation
`b.probability ≤ a.probability`. -/
noncomputable def rankedCandidates (scores : List (PyStr × ℚ)) : List Cand :=
  (candList scores).insertionSort fun a b => b.probability ≤ a.probability

/-- `score_differential(found, labs, disease_df)` from `app.py`.  The `labs`
argument is accepted (with an arbitrary type) and, as in the source, never
used. -/
noncomputable def score_differential {L : Type} (found : List Cell) (labs : L)
    (disease_df : List EvRow) : Except PyErr (List Cand) :=
  match accumScores found disease_df [] with
  | .error e => .error e
  | .ok scores =>
    if scores = [] then .ok []
    else .ok ((rankedCandidates scores).take MAX_TOP)

/-- The diseases receiving a contribution, in the order of their first
contributing row of the evidence table (`seen` carries the already-known
diseases). -/
def firstContribList (found : List Cell) (seen : List PyStr) : List EvRow → List PyStr
  | [] => []
  | r :: rs =>
    if strMem (normalize r.finding_text) found then
      if r.disease ∈ seen then firstContribList found seen rs
      else r.disease :: firstContribList found (seen ++ [r.disease]) rs
    else firstContribList found seen rs

/-- C8 counterexample evidence table: six diseases, each supported by the
same finding with weight `1`. -/
def sixTieDf : List EvRow :=
  [⟨"D1".toList, .str "f".toList, some (.num 1)⟩,
   ⟨"D2".toList, .str "f".toList, some (.num 1)⟩,
   ⟨"D3".toList, .str "f".toList, some (.num 1)⟩,
   ⟨"D4".toList, .str "f".toList, some (.num 1)⟩,
   ⟨"D5".toList, .str "f".toList, some (.num 1)⟩,
   ⟨"D6".toList, .str "f".toList, some (.num 1)⟩]

/-- The raw scores accumulated from `sixTieDf`. -/
def sixTieScores : List (PyStr × ℚ) :=
  [("D1".toList, 1), ("D2".toList, 1), ("D3".toList, 1),
   ("D4".toList, 1), ("D5".toList, 1), ("D6".toList, 1)]

/-! ## Helper lemmas -/

/-- `parse_findings` is the canonical texts of the rows whose normalized
phrase occurs in the normalized text, in dictionary order. -/
theorem parse_findings_eq_filter_map (text : PyStr) (rows : List DictRow) :
    parse_findings text rows =
      (rows.filter fun r => substrB (normalize r.phrase) (normalize (.str text))).map
        DictRow.canonical_text := by
  induction rows with
  | nil => rfl
  | cons r rs ih =>
    by_cases h : substrB (normalize r.phrase) (normalize (.str text)) <;>
      simp [parse_findings, List.filter_cons, h, ih]

/-- Two `found` lists with the same members behave identically under `List.any`. -/
theorem any_congr_of_mem {α : Type} (f₁ f₂ : List α) (g : α → Bool)
    (h : ∀ c : α, c ∈ f₁ ↔ c ∈ f₂) : f₁.any g = f₂.any g := by
  cases hb : f₂.any g with
  | true =>
    rcases List.any_eq_true.mp hb with ⟨c, hc, hg⟩
    exact List.any_eq_true.mpr ⟨c, (h c).mpr hc, hg⟩
  | false =>
    rw [List.any_eq_false] at hb ⊢
    intro c hc
    exact hb c ((h c).mp hc)

/-- Membership tests agree on `found` lists with the same members. -/
theorem strMem_congr (f₁ f₂ : List Cell) (h : ∀ c : Cell, c ∈ f₁ ↔ c ∈ f₂)
    (x : PyStr) : strMem x f₁ = strMem x f₂ :=
  any_congr_of_mem f₁ f₂ _ h

/-- The accumulation loop reads `found` only through membership tests. -/
theorem accumScores_congr (f₁ f₂ : List Cell) (h : ∀ c : Cell, c ∈ f₁ ↔ c ∈ f₂) :
    ∀ (rows : List EvRow) (acc : List (PyStr × ℚ)),
      accumScores f₁ rows acc = accumScores f₂ rows acc := by
  intro rows
  induction rows with
  | nil => intro acc; rfl
  | cons r rs ih =>
    intro acc
    simp only [accumScores, strMem_congr f₁ f₂ h]
    cases pyFloat r.weight with
    | error e => rfl
    | ok w => exact ih _

/-! ## Claims about extraction -/

/-- C1: for the spec's end-to-end example the extractor does return the raw
canonical texts `["Fever", "Cough"]`, but the scorer compares the
*normalized* `finding_text` (`"fever"`, `"cough"`) against them with exact
equality, so no evidence row ever matches and the returned candidate list is
empty — not the claimed pair of 50.0% candidates with raw scores
Flu = 3 and Pneumonia = 3. -/
theorem c1_end_to_end_example_returns_empty :
    parse_findings "fever and cough, no other symptoms".toList
        [⟨.str "fever".toList, .str "Fever".toList⟩,
         ⟨.str "cough".toList, .str "Cough".toList⟩] =
      [.str "Fever".toList, .str "Cough".toList] ∧
    score_differential
        (parse_findings "fever and cough, no other symptoms".toList
          [⟨.str "fever".toList, .str "Fever".toList⟩,
           ⟨.str "cough".toList, .str "Cough".toList⟩]) ()
        [⟨"Flu".toList, .str "Fever".toList, some (.num 2)⟩,
         ⟨"Flu".toList, .str "Cough".toList, some (.num 1)⟩,
         ⟨"Pneumonia".toList, .str "Cough".toList, some (.num 3)⟩] =
      .ok [] :=
  ⟨by decide, rfl⟩

/-- C2: a `weight` cell holding the string `"n/a"` is not treated as the
default `1`: `float("n/a")` raises `ValueError`, so the scorer aborts with an
exception instead of returning a result. -/
theorem c2_nonnumeric_weight_raises :
    score_differential [Cell.str "f".toList] ()
        [⟨"D".toList, .str "f".toList, some (.str "n/a".toList)⟩] =
      .error .valueError := rfl

/-- C3: a dictionary row with a missing `phrase` cell is not skipped: pandas
reads the missing cell as `NaN`, `normalize` turns it into the literal string
`"nan"`, and that string matches any text containing `"nan"` — here the text
`"banana"` — so the malformed row contributes its canonical text `"X"`
instead of being dropped. -/
theorem c3_missing_phrase_row_not_skipped :
    parse_findings "banana".toList [⟨.nan, .str "X".toList⟩] = [.str "X".toList] ∧
    ([.str "X".toList] : List Cell) ≠ [] := by
  exact ⟨by decide, by decide⟩

/-- C4 counterexample: with two distinct phrases (`"fever"`, `"fev"`) mapping
to the same canonical text `"F"`, both matching the text `"fever"`, the
canonical finding occurs twice in the extractor's output, refuting the
claimed deduplication. -/
theorem c4_cex_duplicate_canonical :
    ¬ ((parse_findings "fever".toList
          [⟨.str "fever".toList, .str "F".toList⟩,
           ⟨.str "fev".toList, .str "F".toList⟩]).count (.str "F".toList) ≤ 1) := by
  decide

/-- C4 (amended): the extractor performs no deduplication — each canonical
text occurs in the output exactly as many times as there are matching
dictionary rows carrying it. -/
theorem c4_amended_count_eq_matching_rows (text : PyStr) (rows : List DictRow) (c : Cell) :
    (parse_findings text rows).count c =
      (rows.filter fun r =>
        substrB (normalize r.phrase) (normalize (.str text)) && r.canonical_text == c).length := by
  induction rows with
  | nil => rfl
  | cons r rs ih =>
    by_cases h : substrB (normalize r.phrase) (normalize (.str text)) <;>
      by_cases hc : r.canonical_text = c <;>
        simp [parse_findings, List.filter_cons, List.count_cons, h, hc, ih]

/-- C5: a dictionary entry contributes its canonical text exactly when its
normalized phrase (stripped of surrounding whitespace and lower-cased) occurs
as a contiguous substring of the normalized text; in particular phrase
`"fever"` matches the text `"  FEVER and cough"` and phrase `"ever"` matches
the text `"whatever happened"`. -/
theorem c5_substring_matching_rule :
    (∀ (text : PyStr) (rows : List DictRow),
        parse_findings text rows =
          (rows.filter fun r => substrB (normalize r.phrase) (normalize (.str text))).map
            DictRow.canonical_text) ∧
    parse_findings "  FEVER and cough".toList
        [⟨.str "fever".toList, .str "Fever".toList⟩] = [.str "Fever".toList] ∧
    parse_findings "whatever happened".toList
        [⟨.str "ever".toList, .str "Ever".toList⟩] = [.str "Ever".toList] :=
  ⟨parse_findings_eq_filter_map, by decide, by decide⟩

/-! ## Length lemmas for the scorer -/

theorem softmax_length (x : List ℚ) : (softmax x).length = x.length := by
  unfold softmax
  simp only [List.length_map]

theorem candList_length (s : List (PyStr × ℚ)) : (candList s).length = s.length := by
  simp [candList, softmax_length]

theorem rankedCandidates_length (s : List (PyStr × ℚ)) :
    (rankedCandidates s).length = s.length := by
  rw [rankedCandidates, List.length_insertionSort, candList_length]

/-! ## Claim C6: truncation -/

/-- C6 counterexample: a single evidence row with weight `0` whose finding is
present gives the disease a raw score of `0`, yet the disease is still
returned (the returned list has length `1`), while the number of diseases
with *nonzero* raw score is `0 = min MAX_TOP 0`, refuting the claimed length
formula. -/
theorem c6_cex_zero_weight :
    (score_differential [Cell.str "f".toList] ()
        [⟨"D".toList, .str "f".toList, some (.num 0)⟩]).map List.length = .ok 1 ∧
    (accumScores [Cell.str "f".toList]
        [⟨"D".toList, .str "f".toList, some (.num 0)⟩] []).map
      (fun s => (s.filter fun p => decide (p.2 ≠ 0)).length) = .ok 0 ∧
    (1 : ℕ) ≠ min MAX_TOP 0 :=
  ⟨rfl, rfl, by decide⟩

/-- C6 (amended): the returned list has length `min MAX_TOP k` where `k` is
the number of distinct diseases that received at least one contribution
(regardless of the value of the accumulated raw score, which may be `0`);
in particular the length is at most `MAX_TOP = 5`, and the result is empty
exactly when no row's normalized `finding_text` is a member of the findings. -/
theorem c6_amended_length {L : Type} (found : List Cell) (labs : L)
    (df : List EvRow) (s : List (PyStr × ℚ)) (l : List Cand)
    (h1 : accumScores found df [] = .ok s)
    (h2 : score_differential found labs df = .ok l) :
    l.length = min MAX_TOP s.length := by
  unfold score_differential at h2
  rw [h1] at h2
  have h2' : (if s = [] then Except.ok ([] : List Cand)
      else Except.ok ((rankedCandidates s).take MAX_TOP)) = .ok l := h2
  by_cases hs : s = []
  · subst hs
    rw [if_pos rfl] at h2'
    cases h2'
    simp
  · rw [if_neg hs] at h2'
    cases h2'
    rw [List.length_take, rankedCandidates_length]

/-- C6 witness: a one-row evidence table whose finding is present yields a
one-element result, `1 = min 5 1`. -/
theorem c6_amended_length_witness :
    accumScores [Cell.str "f".toList]
        [⟨"D".toList, .str "f".toList, some (.num 2)⟩] [] = .ok [("D".toList, 2)] ∧
    score_differential [Cell.str "f".toList] ()
        [⟨"D".toList, .str "f".toList, some (.num 2)⟩] =
      .ok ((rankedCandidates [("D".toList, 2)]).take MAX_TOP) ∧
    ((rankedCandidates [("D".toList, 2)]).take MAX_TOP).length =
      min MAX_TOP [("D".toList, (2:ℚ))].length :=
  ⟨rfl, rfl,
    c6_amended_length [Cell.str "f".toList] ()
      [⟨"D".toList, .str "f".toList, some (.num 2)⟩] [("D".toList, 2)]
      ((rankedCandidates [("D".toList, 2)]).take MAX_TOP) rfl rfl⟩

/-! ## Softmax and rounding lemmas -/

theorem sum_map_div_const (l : List ℝ) (c : ℝ) :
    (l.map fun x => x / c).sum = l.sum / c := by
  induction l with
  | nil => simp
  | cons a t ih => simp [add_div, ih]

theorem sum_map_mul_const (l : List ℝ) (c : ℝ) :
    (l.map fun x => x * c).sum = l.sum * c := by
  induction l with
  | nil => simp
  | cons a t ih => simp [add_mul, ih]

/-- The softmax of a nonempty raw-score list is a probability distribution:
it sums to `1`. -/
theorem softmax_sum (x : List ℚ) (hx : x ≠ []) : (softmax x).sum = 1 := by
  unfold softmax
  rw [sum_map_div_const]
  apply div_self
  apply ne_of_gt
  apply List.sum_pos
  · intro y hy
    rcases List.mem_map.mp hy with ⟨v, _, rfl⟩
    exact Real.exp_pos _
  · simpa using hx

/-- Rounding to one decimal moves a value by at most `1 / 20 = 0.05`. -/
theorem abs_roundTo1_sub (y : ℝ) : |roundTo1 y - y| ≤ 1 / 20 := by
  unfold roundTo1
  have h := abs_sub_round (y * 10)
  rw [abs_sub_comm] at h
  have h2 : (↑(round (y * 10)) : ℝ) / 10 - y = (↑(round (y * 10)) - y * 10) / 10 := by
    ring
  rw [h2, abs_div, abs_of_pos (by norm_num : (0:ℝ) < 10)]
  linarith

theorem sum_map_sub_abs_le (l : List ℝ) (f g : ℝ → ℝ) (c : ℝ)
    (h : ∀ x ∈ l, |f x - g x| ≤ c) :
    |(l.map f).sum - (l.map g).sum| ≤ l.length * c := by
  induction l with
  | nil => simp
  | cons a t ih =>
    simp only [List.map_cons, List.sum_cons, List.length_cons]
    have h1 := h a (List.mem_cons_self a t)
    have h2 := ih fun x hx => h x (List.mem_cons_of_mem a hx)
    calc |f a + (t.map f).sum - (g a + (t.map g).sum)|
        = |(f a - g a) + ((t.map f).sum - (t.map g).sum)| := by ring_nf
      _ ≤ |f a - g a| + |(t.map f).sum - (t.map g).sum| := abs_add _ _
      _ ≤ c + t.length * c := add_le_add h1 h2
      _ = (t.length + 1) * c := by ring
      _ = ((t.length + 1 : ℕ) : ℝ) * c := by push_cast; ring

/-- The probabilities of the candidate list are the rounded softmax
percentages of the raw scores, in order. -/
theorem candList_map_prob (s : List (PyStr × ℚ)) :
    (candList s).map Cand.probability =
      (softmax (s.map Prod.snd)).map fun p => roundTo1 (p * 100) := by
  unfold candList
  rw [List.map_map]
  have hlen : (softmax (s.map Prod.snd)).length ≤ (s.map Prod.fst).length := by
    rw [softmax_length, List.length_map, List.length_map]
  calc ((s.map Prod.fst).zip (softmax (s.map Prod.snd))).map
          (Cand.probability ∘ fun np2 => ⟨np2.1, roundTo1 (np2.2 * 100)⟩)
      = ((s.map Prod.fst).zip (softmax (s.map Prod.snd))).map
          ((fun p => roundTo1 (p * 100)) ∘ Prod.snd) := rfl
    _ = (((s.map Prod.fst).zip (softmax (s.map Prod.snd))).map Prod.snd).map
          (fun p => roundTo1 (p * 100)) := by rw [List.map_map]
    _ = (softmax (s.map Prod.snd)).map (fun p => roundTo1 (p * 100)) := by
          rw [List.map_snd_zip _ _ hlen]

/-- The names of the candidate list are the insertion-ordered disease keys. -/
theorem candList_map_name (s : List (PyStr × ℚ)) :
    (candList s).map Cand.name = s.map Prod.fst := by
  unfold candList
  rw [List.map_map]
  have hlen : (s.map Prod.fst).length ≤ (softmax (s.map Prod.snd)).length := by
    rw [softmax_length, List.length_map, List.length_map]
  calc ((s.map Prod.fst).zip (softmax (s.map Prod.snd))).map
          (Cand.name ∘ fun np2 => ⟨np2.1, roundTo1 (np2.2 * 100)⟩)
      = ((s.map Prod.fst).zip (softmax (s.map Prod.snd))).map Prod.fst := rfl
    _ = s.map Prod.fst := List.map_fst_zip _ _ hlen

/-! ## Claim C8: the sum of the rounded probabilities -/

/-- C8 counterexample: with six diseases tied at raw score `1`, every softmax
probability is `1/6`, each rounds to `16.7`, and the untruncated rounded
probabilities sum to `100.2`, which is not within `0.1` of `100`. -/
theorem c8_cex_six_way_tie :
    accumScores [Cell.str "f".toList] sixTieDf [] = .ok sixTieScores ∧
    ¬ |((rankedCandidates sixTieScores).map Cand.probability).sum - 100| ≤ 1 / 10 := by
  constructor
  · rfl
  · have hperm : List.Perm ((rankedCandidates sixTieScores).map Cand.probability)
        ((candList sixTieScores).map Cand.probability) :=
      (List.perm_insertionSort _ _).map _
    rw [hperm.sum_eq, candList_map_prob]
    have hmax : maxQ (sixTieScores.map Prod.snd) = 1 := by
      simp [sixTieScores, maxQ]
    have hround : roundTo1 ((50 : ℝ) / 3) = 167 / 10 := by
      unfold roundTo1
      have h1 : (50 : ℝ) / 3 * 10 = ((500 / 3 : ℚ) : ℝ) := by push_cast; ring
      rw [h1, Rat.round_cast]
      norm_num [round_eq]
    unfold softmax
    rw [hmax]
    simp only [sixTieScores, List.map_cons, List.map_nil, Rat.cast_one, sub_self,
      Real.exp_zero, List.sum_cons, List.sum_nil]
    norm_num [hround]
    rw [abs_of_pos (by norm_num : (0:ℝ) < 1 / 5)]
    norm_num

/-- C8 (amended): for every findings set and evidence table for which at
least one disease receives a contribution, the sum of the untruncated
rounded probabilities differs from `100` by at most `0.05` per candidate
(`n / 20` for `n` candidates); the claimed universal `±0.1` bound holds only
for small candidate sets and fails in general. -/
theorem c8_amended_sum_within_rounding (found : List Cell) (df : List EvRow)
    (s : List (PyStr × ℚ)) (h : accumScores found df [] = .ok s) (hs : s ≠ []) :
    |((rankedCandidates s).map Cand.probability).sum - 100| ≤ (s.length : ℝ) / 20 := by
  have hperm : List.Perm ((rankedCandidates s).map Cand.probability)
      ((candList s).map Cand.probability) :=
    (List.perm_insertionSort _ _).map _
  rw [hperm.sum_eq, candList_map_prob]
  have hsum1 : (softmax (s.map Prod.snd)).sum = 1 :=
    softmax_sum _ (by simpa using hs)
  have h100 : ((softmax (s.map Prod.snd)).map fun p => p * 100).sum = 100 := by
    rw [sum_map_mul_const, hsum1, one_mul]
  have hb := sum_map_sub_abs_le (softmax (s.map Prod.snd))
    (fun p => roundTo1 (p * 100)) (fun p => p * 100) (1 / 20)
    (fun x _ => abs_roundTo1_sub (x * 100))
  calc |((softmax (s.map Prod.snd)).map fun p => roundTo1 (p * 100)).sum - 100|
      = |((softmax (s.map Prod.snd)).map fun p => roundTo1 (p * 100)).sum -
          ((softmax (s.map Prod.snd)).map fun p => p * 100).sum| := by rw [h100]
    _ ≤ (softmax (s.map Prod.snd)).length * (1 / 20) := hb
    _ = (s.length : ℝ) / 20 := by
        rw [softmax_length, List.length_map]; ring

/-- C8 witness: a single contributing disease receives probability `100.0`
and the sum is exactly `100`, within the amended `n / 20` bound. -/
theorem c8_amended_sum_within_rounding_witness :
    accumScores [Cell.str "f".toList]
        [⟨"D".toList, .str "f".toList, some (.num 2)⟩] [] = .ok [("D".toList, 2)] ∧
    ([("D".toList, (2:ℚ))] : List (PyStr × ℚ)) ≠ [] ∧
    |((rankedCandidates [("D".toList, 2)]).map Cand.probability).sum - 100| ≤
      (([("D".toList, (2:ℚ))] : List (PyStr × ℚ)).length : ℝ) / 20 :=
  ⟨rfl, by simp,
    c8_amended_sum_within_rounding [Cell.str "f".toList]
      [⟨"D".toList, .str "f".toList, some (.num 2)⟩] [("D".toList, 2)] rfl (by simp)⟩

/-! ## Claim C7: ranking order -/

/-- `addScore` keeps the key order, appending an unseen key at the end. -/
theorem addScore_keys (acc : List (PyStr × ℚ)) (d : PyStr) (w : ℚ) :
    (addScore acc d w).map Prod.fst =
      if d ∈ acc.map Prod.fst then acc.map Prod.fst else acc.map Prod.fst ++ [d] := by
  induction acc with
  | nil => simp [addScore]
  | cons kv t ih =>
    obtain ⟨k, v⟩ := kv
    by_cases hk : k = d
    · simp [addScore, hk]
    · by_cases hd : d ∈ t.map Prod.fst <;>
        simp [addScore, hk, hd, Ne.symm hk, ih]

/-- The keys of the accumulated score map are the already-present keys
followed by the diseases' first-contribution order. -/
theorem accumScores_keys (found : List Cell) :
    ∀ (rows : List EvRow) (acc s : List (PyStr × ℚ)),
      accumScores found rows acc = .ok s →
      s.map Prod.fst = acc.map Prod.fst ++ firstContribList found (acc.map Prod.fst) rows := by
  intro rows
  induction rows with
  | nil =>
    intro acc s h
    cases h
    simp [firstContribList]
  | cons r rs ih =>
    intro acc s h
    rw [accumScores] at h
    cases hw : pyFloat r.weight with
    | error e => rw [hw] at h; cases h
    | ok w =>
      rw [hw] at h
      have hstep : accumScores found rs
          (if strMem (normalize r.finding_text) found then addScore acc r.disease w
           else acc) = .ok s := h
      by_cases hm : strMem (normalize r.finding_text) found
      · rw [if_pos hm] at hstep
        by_cases hd : r.disease ∈ acc.map Prod.fst
        · have hkeys : (addScore acc r.disease w).map Prod.fst = acc.map Prod.fst := by
            rw [addScore_keys, if_pos hd]
          have := ih (addScore acc r.disease w) s hstep
          rw [hkeys] at this
          rw [this, firstContribList, if_pos hm, if_pos hd]
        · have hkeys : (addScore acc r.disease w).map Prod.fst =
              acc.map Prod.fst ++ [r.disease] := by
            rw [addScore_keys, if_neg hd]
          have := ih (addScore acc r.disease w) s hstep
          rw [hkeys] at this
          rw [this, firstContribList, if_pos hm, if_neg hd, List.append_assoc,
            List.singleton_append]
      · rw [if_neg hm] at hstep
        rw [ih acc s hstep, firstContribList, if_neg hm]

/-- Filtering commutes with `orderedInsert` when the filter cannot hold for
any element strictly preceding the insertion point. -/
theorem filter_orderedInsert {α : Type} (r : α → α → Prop) [DecidableRel r]
    (q : α → Bool) (a : α) (l : List α)
    (hq : ∀ b, q a = true → ¬ r a b → q b = false) :
    (l.orderedInsert r a).filter q =
      if q a then a :: l.filter q else l.filter q := by
  induction l with
  | nil =>
    by_cases hqa : q a <;> simp [List.orderedInsert, List.filter, hqa]
  | cons b t ih =>
    rw [List.orderedInsert]
    by_cases hr : r a b
    · rw [if_pos hr]
      by_cases hqa : q a <;> simp [List.filter_cons, hqa]
    · rw [if_neg hr]
      by_cases hqa : q a
      · have hqb : q b = false := hq b hqa hr
        simp [List.filter_cons, hqb, ih, hqa]
      · simp [List.filter_cons, ih, hqa]

/-- Insertion sort is stable: filtering by a predicate that holds only on a
single key class returns the class in its original order. -/
theorem filter_insertionSort {α : Type} (r : α → α → Prop) [DecidableRel r]
    (q : α → Bool) (hq : ∀ a b, q a = true → ¬ r a b → q b = false) :
    ∀ l : List α, (l.insertionSort r).filter q = l.filter q := by
  intro l
  induction l with
  | nil => rfl
  | cons a t ih =>
    rw [List.insertionSort, filter_orderedInsert r q a _ (hq a)]
    by_cases hqa : q a <;> simp [List.filter_cons, hqa, ih]

/-- C7: the returned candidate list is sorted by non-increasing rounded
probability, and the candidates of any fixed probability value appear as a
sublist of the first-contribution order of the diseases in the evidence
table (the stable tie-break). -/
theorem c7_sorted_and_stable {L : Type} (found : List Cell) (labs : L)
    (df : List EvRow) (l : List Cand)
    (h : score_differential found labs df = .ok l) :
    l.Pairwise (fun a b => b.probability ≤ a.probability) ∧
    ∀ p : ℝ, ((l.filter fun c => decide (c.probability = p)).map Cand.name).Sublist
      (firstContribList found [] df) := by
  unfold score_differential at h
  cases haccum : accumScores found df [] with
  | error e => rw [haccum] at h; cases h
  | ok s =>
    rw [haccum] at h
    have h' : (if s = [] then Except.ok ([] : List Cand)
        else Except.ok ((rankedCandidates s).take MAX_TOP)) = .ok l := h
    by_cases hs : s = []
    · rw [if_pos hs] at h'
      cases h'
      exact ⟨List.Pairwise.nil, fun p => List.nil_sublist _⟩
    · rw [if_neg hs] at h'
      cases h'
      constructor
      · haveI : IsTotal Cand fun a b => b.probability ≤ a.probability :=
          ⟨fun a b => le_total b.probability a.probability⟩
        haveI : IsTrans Cand fun a b => b.probability ≤ a.probability :=
          ⟨fun _ _ _ hab hbc => le_trans hbc hab⟩
        exact ((List.sorted_insertionSort _ (candList s)).sublist
          (List.take_sublist _ _))
      · intro p
        have hq : ∀ a b : Cand, (decide (a.probability = p)) = true →
            ¬ b.probability ≤ a.probability → (decide (b.probability = p)) = false := by
          intro a b ha hr
          rw [decide_eq_true_eq] at ha
          rw [decide_eq_false_iff_not]
          intro hb
          exact hr (le_of_eq (ha ▸ hb))
        have h1 : (((rankedCandidates s).take MAX_TOP).filter
              fun c => decide (c.probability = p)).Sublist
            ((rankedCandidates s).filter fun c => decide (c.probability = p)) :=
          (List.take_sublist _ _).filter _
        have h2 : ((rankedCandidates s).filter fun c => decide (c.probability = p)) =
            (candList s).filter fun c => decide (c.probability = p) :=
          filter_insertionSort _ _ hq (candList s)
        have h3 : ((candList s).filter fun c => decide (c.probability = p)).Sublist
            (candList s) := List.filter_sublist _
        have h4 : ((candList s).map Cand.name) = firstContribList found [] df := by
          rw [candList_map_name]
          have := accumScores_keys found df [] s haccum
          simpa using this
        have hA : ((((rankedCandidates s).take MAX_TOP).filter
              fun c => decide (c.probability = p)).map Cand.name).Sublist
            (((candList s).filter fun c => decide (c.probability = p)).map Cand.name) :=
          (h2 ▸ h1).map Cand.name
        have hB : (((candList s).filter fun c => decide (c.probability = p)).map
              Cand.name).Sublist ((candList s).map Cand.name) :=
          h3.map Cand.name
        exact hA.trans (h4 ▸ hB)

/-- C7 witness: the ranking property instantiated on a one-row evidence table
whose finding is present. -/
theorem c7_sorted_and_stable_witness :
    score_differential [Cell.str "f".toList] ()
        [⟨"D".toList, .str "f".toList, some (.num 2)⟩] =
      .ok ((rankedCandidates [("D".toList, 2)]).take MAX_TOP) ∧
    (((rankedCandidates [("D".toList, 2)]).take MAX_TOP).Pairwise
      fun a b => b.probability ≤ a.probability) ∧
    ∀ p : ℝ, ((((rankedCandidates [("D".toList, 2)]).take MAX_TOP).filter
        fun c => decide (c.probability = p)).map Cand.name).Sublist
      (firstContribList [Cell.str "f".toList] []
        [⟨"D".toList, .str "f".toList, some (.num 2)⟩]) :=
  ⟨rfl, c7_sorted_and_stable [Cell.str "f".toList] ()
    [⟨"D".toList, .str "f".toList, some (.num 2)⟩]
    ((rankedCandidates [("D".toList, 2)]).take MAX_TOP) rfl⟩

/-! ## Claims about scoring: independence -/

/-- C9: the scorer's output is independent of the `labs` argument — the
parameter (of arbitrary type) is never inspected. -/
theorem c9_labs_ignored {L₁ L₂ : Type} (found : List Cell) (labs1 : L₁) (labs2 : L₂)
    (disease_df : List EvRow) :
    score_differential found labs1 disease_df = score_differential found labs2 disease_df := rfl

/-- C10: the scorer depends on the extracted findings only through
membership: two `found` lists with the same members (regardless of
duplication or order) produce identical results, so a duplicated canonical
finding is never double-counted. -/
theorem c10_membership_only {L : Type} (f₁ f₂ : List Cell) (labs : L)
    (disease_df : List EvRow) (h : ∀ c : Cell, c ∈ f₁ ↔ c ∈ f₂) :
    score_differential f₁ labs disease_df = score_differential f₂ labs disease_df := by
  unfold score_differential
  rw [accumScores_congr f₁ f₂ h]

/-- C10 witness: the list `["F", "F"]` (a duplicated finding) and its
deduplication `["F"]` have the same members and yield the same score. -/
theorem c10_membership_only_witness :
    (∀ c : Cell, c ∈ [Cell.str "F".toList, Cell.str "F".toList] ↔ c ∈ [Cell.str "F".toList]) ∧
    score_differential [Cell.str "F".toList, Cell.str "F".toList] ()
        [⟨"D".toList, .str "f".toList, some (.num 1)⟩] =
      score_differential [Cell.str "F".toList] ()
        [⟨"D".toList, .str "f".toList, some (.num 1)⟩] :=
  ⟨fun c => by simp, c10_membership_only _ _ () _ (fun c => by simp)⟩

end App
